import Mathlib

/-!
# Verification of `scripts/update_patrons.py`

A shallow embedding of the patron-synchronisation script.  The script
fetches campaign members from a REST API (cursor pagination, hard cap of
100 pages), classifies them into paying patrons ("gold") and free
followers ("silver"), renders a Lua data file, diffs it against the prior
on-disk file ignoring comment lines, conditionally writes the file and
reports `changed=...` lines to an orchestration output channel, and posts
a best-effort webhook notification for newly appeared patrons.

Modelling conventions:
* Machine text is modelled as `String` / `List Char`; file contents that
  the script manipulates line-by-line are modelled as `List String` (the
  list of lines, i.e. the image of the text under `split("\n")`, which is
  a bijective representation since split lines never contain a newline).
* The paginated HTTP fetch is modelled against an oracle
  `resp : Nat → Page` giving the response to the k-th request.
* `main`'s post-fetch publish/notify step is modelled as the pure
  function `runMain`; the webhook outcome is an oracle `notifyOk : Bool`.
-/

/-- A campaign member as constructed in `fetch_all_members`
(src/scripts/update_patrons.py:96-100): `name` from `full_name`, `status`
from `patron_status` (which may be JSON null, hence `Option`),
`amount_cents` from `currently_entitled_amount_cents`. -/
structure Member where
  name : String
  status : Option String
  amount_cents : Int
deriving DecidableEq, Repr

/-- `if not name or name == "Anonymous": continue`
(update_patrons.py:124): a member name is usable iff it is non-empty and
not the placeholder `"Anonymous"`. -/
def usableName (n : String) : Bool :=
  !(n = "" || n = "Anonymous")

/-- `member["status"] == "active_patron" and member["amount_cents"] > 0`
(update_patrons.py:128-131). -/
def isPaying (m : Member) : Bool :=
  m.status == some "active_patron" && decide (0 < m.amount_cents)

/-- The two append loops of `categorize_members` (update_patrons.py:122-137),
before sorting: names of paying members in input order, and names of all
other usable-name members in input order. -/
def collectNames : List Member → List String × List String
  | [] => ([], [])
  | m :: rest =>
    let p := collectNames rest
    if usableName m.name then
      if isPaying m then (m.name :: p.1, p.2) else (p.1, m.name :: p.2)
    else p

/-- Case-insensitive key of a name: Python's `str.lower` sort key
(update_patrons.py:140-141), restricted to ASCII case mapping. -/
def lowerData (s : String) : List Char :=
  s.data.map Char.toLower

/-- Lexicographic (code-point) order on character lists: Python's string
comparison used by `list.sort`. -/
def lexLe : List Char → List Char → Bool
  | [], _ => true
  | _ :: _, [] => false
  | c :: cs, d :: ds => if c = d then lexLe cs ds else decide (c < d)

/-- The sort order of `paying_patrons.sort(key=str.lower)`:
compare the lowercased strings lexicographically. -/
def ciLe (a b : String) : Prop :=
  lexLe (lowerData a) (lowerData b) = true

instance : DecidableRel ciLe := fun a b => by
  unfold ciLe; infer_instance

theorem lexLe_total (a b : List Char) : lexLe a b = true ∨ lexLe b a = true := by
  induction a generalizing b with
  | nil => left; rfl
  | cons c cs ih =>
    cases b with
    | nil => right; rfl
    | cons d ds =>
      by_cases h : c = d
      · subst h
        rcases ih ds with h' | h'
        · left; simp [lexLe, h']
        · right; simp [lexLe, h']
      · rcases lt_or_gt_of_ne h with hlt | hgt
        · left; simp [lexLe, h, hlt]
        · right
          have hne : d ≠ c := fun hh => h hh.symm
          simp [lexLe, hne, hgt]

theorem lexLe_trans {a b c : List Char} (hab : lexLe a b = true)
    (hbc : lexLe b c = true) : lexLe a c = true := by
  induction a generalizing b c with
  | nil => rfl
  | cons x xs ih =>
    cases b with
    | nil => simp [lexLe] at hab
    | cons y ys =>
      cases c with
      | nil => simp [lexLe] at hbc
      | cons z zs =>
        by_cases hxy : x = y
        · subst hxy
          by_cases hyz : x = z
          · subst hyz
            simp [lexLe] at hab hbc ⊢
            exact ih hab hbc
          · simp [lexLe, hyz] at hbc ⊢
            exact hbc
        · by_cases hyz : y = z
          · subst hyz
            simp [lexLe, hxy] at hab ⊢
            exact hab
          · simp [lexLe, hxy] at hab
            simp [lexLe, hyz] at hbc
            by_cases hxz : x = z
            · subst hxz
              exact absurd (lt_trans hab hbc) (lt_irrefl x)
            · simp [lexLe, hxz]
              exact lt_trans hab hbc

instance : IsTotal String ciLe :=
  ⟨fun a b => lexLe_total (lowerData a) (lowerData b)⟩

instance : IsTrans String ciLe :=
  ⟨fun _ _ _ hab hbc => lexLe_trans hab hbc⟩

/-- `categorize_members` (update_patrons.py:112-143): partition usable-name
members into paying patrons and free followers, each sorted by the
case-insensitive key (Python's stable sort modelled by insertion sort). -/
def categorize_members (ms : List Member) : List String × List String :=
  ((collectNames ms).1.insertionSort ciLe, (collectNames ms).2.insertionSort ciLe)

/-! ## The renderer `generate_lua` -/

/-- One stage of `lua_escape` (update_patrons.py:151-158): Python's
`str.replace(needle, repl)` for a one-character needle. -/
def pyReplace (needle : Char) (repl : List Char) : List Char → List Char
  | [] => []
  | c :: rest => (if c = needle then repl else [c]) ++ pyReplace needle repl rest

/-- `lua_escape` (update_patrons.py:149-158) on the character list: the
six chained `replace` calls, in the source's order (backslash first). -/
def luaEscapeData (l : List Char) : List Char :=
  pyReplace '\x00' []
    (pyReplace '\t' ['\\', 't']
      (pyReplace '\r' ['\\', 'r']
        (pyReplace '\n' ['\\', 'n']
          (pyReplace '\"' ['\\', '\"']
            (pyReplace '\\' ['\\', '\\'] l)))))

/-- `lua_escape` (update_patrons.py:149-158). -/
def lua_escape (s : String) : String :=
  ⟨luaEscapeData s.data⟩

/-- One rendered entry line
`f'        {{ name = "{escaped}", tier = "{tier}" }},'`
(update_patrons.py:167). -/
def entryLine (name tier : String) : String :=
  "        \x7b name = \"" ++ lua_escape name ++ "\", tier = \"" ++ tier ++ "\" \x7d,"

/-- The fixed lines of the template before the entry list
(update_patrons.py:182-199). -/
def headerLines : List String :=
  [ "-- AUTO-GENERATED FILE - DO NOT EDIT MANUALLY"
  , "-- This file is automatically updated by GitHub Actions from Patreon data"
  , "-- Last updated: See git commit timestamp"
  , ""
  , "local PeaversCommons = _G.PeaversCommons"
  , "local Patrons = PeaversCommons.Patrons"
  , ""
  , "local function InitializePatrons()"
  , "    if not Patrons or not Patrons.AddPatrons then"
  , "        return false"
  , "    end"
  , ""
  , "    -- Clear existing patrons to prevent duplicates on reload"
  , "    if Patrons.Clear then"
  , "        Patrons:Clear()"
  , "    end"
  , ""
  , "    Patrons:AddPatrons(\x7b" ]

/-- The fixed lines of the template after the entry list
(update_patrons.py:201-209); the final `""` is the empty line after the
trailing newline of the triple-quoted template. -/
def footerLines : List String :=
  [ "    \x7d)"
  , ""
  , "    return true"
  , "end"
  , ""
  , "InitializePatrons()"
  , ""
  , "return InitializePatrons"
  , "" ]

/-- `"        -- No patrons yet"` (update_patrons.py:180). -/
def placeholderLine : String :=
  "        -- No patrons yet"

/-- The lines of `combined` (update_patrons.py:160-180): the gold entry
lines (from `format_patron_list(paying_patrons, "gold")`) followed by the
silver entry lines, or the placeholder comment when both lists are
empty.  `format_patron_list` of a non-empty list joins one non-empty
entry line per name with newlines, so `all_entries` is empty exactly when
both name lists are. -/
def entrySection (g s : List String) : List String :=
  if g.isEmpty && s.isEmpty then [placeholderLine]
  else g.map (fun n => entryLine n "gold") ++ s.map (fun n => entryLine n "silver")

/-- The lines of the document produced by `generate_lua`
(update_patrons.py:146-209): fixed header, entry section, fixed footer,
joined by newlines in the triple-quoted f-string. -/
def generateLuaLines (g s : List String) : List String :=
  headerLines ++ entrySection g s ++ footerLines

/-- Join lines with `"\n"` (inverse of Python's `split("\n")`). -/
def joinLines : List String → String
  | [] => ""
  | [l] => l
  | l :: rest => l ++ "\n" ++ joinLines rest

/-- `generate_lua` (update_patrons.py:146-209) as the document text:
the f-string equals its line decomposition joined by newlines. -/
def generate_lua (g s : List String) : String :=
  joinLines (generateLuaLines g s)

/-! ## The regex re-parser `parse_existing_patrons`

`parse_existing_patrons` (update_patrons.py:270-278) collects the first
capture group of every non-overlapping match of the regular expression
`\{\s*name\s*=\s*"([^"]+)"` in the file content.  `re.finditer` scans
left to right: at each position it tries to match, and on success resumes
immediately after the match.  The greedy `[^"]+` followed by `"` matches
exactly a non-empty maximal run of non-quote characters that is followed
by a quote. -/

/-- The ASCII characters matched by the regex class `\s`. -/
def isPySpace (c : Char) : Bool :=
  c = ' ' || c = '\t' || c = '\n' || c = '\r' || c = '\x0b' || c = '\x0c'

/-- Match a literal character sequence, returning the remainder. -/
def expectLit : List Char → List Char → Option (List Char)
  | [], l => some l
  | _ :: _, [] => none
  | p :: ps, c :: cs => if c = p then expectLit ps cs else none

/-- The tail of the pattern, `([^"]+)"`: the greedy non-empty capture of
non-quote characters followed by the closing quote (the maximal run of
non-quote characters, whose successor must be a quote — backtracking
inside the run cannot expose one). -/
def matchName (r6 : List Char) : Option (String × List Char) :=
  let cap := r6.takeWhile (fun c => !(c = '\"'))
  match r6.dropWhile (fun c => !(c = '\"')) with
  | c :: r8 =>
    if cap.isEmpty then none
    else if c = '\"' then some (⟨cap⟩, r8) else none
  | [] => none

/-- Attempt to match `\s*name\s*=\s*"([^"]+)"` (the part of the pattern
after the opening brace); returns the capture and the text after the
closing quote. -/
def matchCore (r : List Char) : Option (String × List Char) :=
  (expectLit ['n', 'a', 'm', 'e'] (r.dropWhile isPySpace)).bind fun r2 =>
    (expectLit ['='] (r2.dropWhile isPySpace)).bind fun r4 =>
      (expectLit ['\"'] (r4.dropWhile isPySpace)).bind fun r6 =>
        matchName r6

/-- Attempt to match the full pattern `\{\s*name\s*=\s*"([^"]+)"` at the
head of the text. -/
def matchAt : List Char → Option (String × List Char)
  | [] => none
  | c :: r => if c = '\x7b' then matchCore r else none

/-- Left-to-right non-overlapping scan of `re.finditer`, with explicit
fuel (any fuel at least the text length gives the scan's value). -/
def findAux : Nat → List Char → List String
  | 0, _ => []
  | _ + 1, [] => []
  | fuel + 1, c :: r =>
    match matchAt (c :: r) with
    | some (n, rest) => n :: findAux fuel rest
    | none => findAux fuel r

/-- `parse_existing_patrons` (update_patrons.py:270-278), as the list of
captures in scan order (the Python function wraps them in a `set`; set
membership equals list membership). -/
def parse_existing_patrons (content : String) : List String :=
  findAux content.data.length content.data

/-! ## Lua double-quoted string literal semantics

`luaUnescape` interprets a character sequence as the contents of a
double-quoted string literal of the target language, per the spec's
escaping contract (§4.3, §8): the two-character sequences `\\`, `\"`,
`\n`, `\r`, `\t` denote one character each, any other character denotes
itself, and a bare `"`, a trailing `\`, or an unknown escape is invalid.
Modelled from the spec: the Lua runtime consuming the generated file is
not part of this repository. -/
def luaUnescape : List Char → Option (List Char)
  | [] => some []
  | c :: r =>
    if c = '\\' then
      match r with
      | [] => none
      | d :: r2 =>
        if d = '\\' then (luaUnescape r2).map (fun t => '\\' :: t)
        else if d = '\"' then (luaUnescape r2).map (fun t => '\"' :: t)
        else if d = 'n' then (luaUnescape r2).map (fun t => '\n' :: t)
        else if d = 'r' then (luaUnescape r2).map (fun t => '\r' :: t)
        else if d = 't' then (luaUnescape r2).map (fun t => '\t' :: t)
        else none
    else if c = '\"' then none
    else (luaUnescape r).map (fun t => c :: t)

/-! ## The paginated fetch -/

/-- One API response page: the member records extracted from `data` and
the `links.next` URL (update_patrons.py:94-104). -/
structure Page where
  members : List Member
  next : Option String

/-- The fetch loop of `fetch_all_members` (update_patrons.py:70-109)
against a response oracle `resp` (the k-th request is answered by
`resp k`).  `fuel` is the remaining page budget (`max_pages -
page_count`), `url`/`prev` mirror `url`/`previous_url`, `k` is
`page_count`, `acc` the accumulated member list.  Returns the members
and the final `page_count` (the number of requests performed). -/
def fetchGo (resp : Nat → Page) : Nat → Option String → Option String → Nat →
    List Member → List Member × Nat
  | 0, _, _, k, acc => (acc, k)
  | _ + 1, none, _, k, acc => (acc, k)
  | fuel + 1, some u, prev, k, acc =>
    if some u = prev then (acc, k)
    else
      let p := resp k
      fetchGo resp fuel p.next (some u) (k + 1) (acc ++ p.members)

/-- `fetch_all_members` (update_patrons.py:70-109): run the loop from the
initial members URL with the page cap of 100. -/
def fetch_all_members (resp : Nat → Page) (firstUrl : String) : List Member × Nat :=
  fetchGo resp 100 (some firstUrl) none 0 []

/-! ## The publish / notify step of `main` -/

/-- `[l for l in content.split("\n") if not l.startswith("--")]`
(update_patrons.py:326-327): drop the lines whose first two characters
are `--`. -/
def stripCommentLines (ls : List String) : List String :=
  ls.filter (fun l => !(decide (l.data.take 2 = ['-', '-'])))

/-- The `new_patron_list` computation (update_patrons.py:318-323): names
of the current run absent from the prior document's parsed name set,
paying patrons first (tier `"gold"`), then followers (tier `"silver"`). -/
def newPatrons (existing : List String) (pg fs : List String) :
    List (String × String) :=
  (pg.filter (fun n => !(decide (n ∈ existing)))).map (fun n => (n, "gold")) ++
    (fs.filter (fun n => !(decide (n ∈ existing)))).map (fun n => (n, "silver"))

/-- Observable outcome of one run of `main` after the fetch
(update_patrons.py:300-375). -/
structure RunResult where
  /-- Lines of the output file after the run (prior content if unchanged). -/
  fileContent : List String
  /-- Whether `LUA_OUTPUT_PATH.write_text` was executed. -/
  wroteFile : Bool
  /-- Lines reported to the orchestration output channel (`GITHUB_OUTPUT`). -/
  ghOutput : List String
  /-- Webhook POSTs performed, each carrying its `new_patron_list` payload. -/
  notifications : List (List (String × String))
  /-- Diagnostic messages about the notification outcome. -/
  logs : List String
  /-- Process exit code. -/
  exitCode : Nat
deriving DecidableEq, Repr

/-- The publish/notify step of `main` (update_patrons.py:300-375), given
the prior on-disk document (`none` when `LUA_OUTPUT_PATH` does not
exist), the fetched members, and the webhook delivery outcome.  Mirrors
the source: categorize, render, compare comment-stripped lines, and
either report `changed=false` without writing, or write the rendered
document, notify for a non-empty `new_patron_list` (skipped entirely on a
first run), and report `changed=true` with both tier counts. -/
def runMain (prior : Option (List String)) (ms : List Member)
    (notifyOk : Bool) : RunResult :=
  let pg := (categorize_members ms).1
  let fs := (categorize_members ms).2
  let luaLines := generateLuaLines pg fs
  match prior with
  | some e =>
    let existing := parse_existing_patrons (joinLines e)
    let nl := newPatrons existing pg fs
    if stripCommentLines e = stripCommentLines luaLines then
      { fileContent := e, wroteFile := false, ghOutput := ["changed=false"],
        notifications := [], logs := [], exitCode := 0 }
    else
      { fileContent := luaLines, wroteFile := true,
        ghOutput := ["changed=true", "paying_count=" ++ toString pg.length,
          "follower_count=" ++ toString fs.length],
        notifications := if nl.isEmpty then [] else [nl],
        logs :=
          if nl.isEmpty then []
          else if notifyOk then ["Discord notification sent successfully!"]
          else ["Failed to send Discord notification"],
        exitCode := 0 }
  | none =>
    { fileContent := luaLines, wroteFile := true,
      ghOutput := ["changed=true", "paying_count=" ++ toString pg.length,
        "follower_count=" ++ toString fs.length],
      notifications := [], logs := [], exitCode := 0 }

/-! ## Lemmas: the classifier -/

theorem mem_collectNames_fst (ms : List Member) (n : String) :
    n ∈ (collectNames ms).1 ↔
      ∃ m ∈ ms, m.name = n ∧ usableName m.name = true ∧ isPaying m = true := by
  induction ms with
  | nil => simp [collectNames]
  | cons m rest ih =>
    cases hu : usableName m.name <;> cases hp : isPaying m
    all_goals simp [collectNames, hu, hp, ih]
    all_goals aesop

theorem mem_collectNames_snd (ms : List Member) (n : String) :
    n ∈ (collectNames ms).2 ↔
      ∃ m ∈ ms, m.name = n ∧ usableName m.name = true ∧ isPaying m = false := by
  induction ms with
  | nil => simp [collectNames]
  | cons m rest ih =>
    cases hu : usableName m.name <;> cases hp : isPaying m
    all_goals simp [collectNames, hu, hp, ih]
    all_goals aesop

/-- C1: for every member list, `categorize_members` puts a name in the
gold (paying) list iff some member carries that name, the name is usable
(non-empty, not `"Anonymous"`), the status equals `"active_patron"` and
`amount_cents > 0`; every other usable-named member's name goes to the
silver (follower) list; unusable names appear in neither list; and on the
spec's example member list the result is `(["Amy"], ["Bo"])`. -/
theorem categorize_members_tiers (ms : List Member) (n : String) :
    (n ∈ (categorize_members ms).1 ↔
      ∃ m ∈ ms, m.name = n ∧ usableName n = true ∧
        m.status = some "active_patron" ∧ 0 < m.amount_cents) ∧
    (n ∈ (categorize_members ms).2 ↔
      ∃ m ∈ ms, m.name = n ∧ usableName n = true ∧
        ¬(m.status = some "active_patron" ∧ 0 < m.amount_cents)) ∧
    (usableName n = false →
      n ∉ (categorize_members ms).1 ∧ n ∉ (categorize_members ms).2) ∧
    categorize_members
        [{ name := "Amy", status := some "active_patron", amount_cents := 500 },
         { name := "Bo", status := some "declined_patron", amount_cents := 0 },
         { name := "", status := some "active_patron", amount_cents := 500 }] =
      (["Amy"], ["Bo"]) := by
  have hPay : ∀ m : Member,
      isPaying m = true ↔ m.status = some "active_patron" ∧ 0 < m.amount_cents := by
    intro m; simp [isPaying]
  have h1 : n ∈ (categorize_members ms).1 ↔
      ∃ m ∈ ms, m.name = n ∧ usableName n = true ∧
        m.status = some "active_patron" ∧ 0 < m.amount_cents := by
    rw [show (categorize_members ms).1 = (collectNames ms).1.insertionSort ciLe from rfl,
      List.mem_insertionSort, mem_collectNames_fst]
    constructor
    · rintro ⟨m, hm, rfl, hu, hp⟩
      exact ⟨m, hm, rfl, hu, (hPay m).mp hp⟩
    · rintro ⟨m, hm, rfl, hu, hs, ha⟩
      exact ⟨m, hm, rfl, hu, (hPay m).mpr ⟨hs, ha⟩⟩
  have h2 : n ∈ (categorize_members ms).2 ↔
      ∃ m ∈ ms, m.name = n ∧ usableName n = true ∧
        ¬(m.status = some "active_patron" ∧ 0 < m.amount_cents) := by
    rw [show (categorize_members ms).2 = (collectNames ms).2.insertionSort ciLe from rfl,
      List.mem_insertionSort, mem_collectNames_snd]
    constructor
    · rintro ⟨m, hm, rfl, hu, hp⟩
      refine ⟨m, hm, rfl, hu, fun hc => ?_⟩
      rw [(hPay m).mpr hc] at hp
      cases hp
    · rintro ⟨m, hm, rfl, hu, hc⟩
      refine ⟨m, hm, rfl, hu, ?_⟩
      cases hp : isPaying m
      · rfl
      · exact absurd ((hPay m).mp hp) hc
  refine ⟨h1, h2, ?_, by decide⟩
  intro hn
  constructor
  · intro hmem
    rcases h1.mp hmem with ⟨m, _, _, hu, _⟩
    simp [hn] at hu
  · intro hmem
    rcases h2.mp hmem with ⟨m, _, _, hu, _⟩
    simp [hn] at hu

/-- Witness for the hypothesis-bearing conjunct of
`categorize_members_tiers`: the empty name is unusable and lands in
neither tier of the example run. -/
theorem categorize_members_tiers_witness :
    "" ∉ (categorize_members
      [{ name := "Amy", status := some "active_patron", amount_cents := 500 }]).1 ∧
    "" ∉ (categorize_members
      [{ name := "Amy", status := some "active_patron", amount_cents := 500 }]).2 :=
  (categorize_members_tiers
    [{ name := "Amy", status := some "active_patron", amount_cents := 500 }]
    "").2.2.1 (by decide)

/-! ## Lemmas: shape of rendered lines -/

theorem entryLine_data (n t : String) :
    (entryLine n t).data =
      "        \x7b name = \"".data ++
        ((lua_escape n).data ++
          ("\", tier = \"".data ++ (t.data ++ "\" \x7d,".data))) := by
  simp [entryLine, String.data_append]

theorem entryLine_gold_data (a : String) :
    (entryLine a "gold").data =
      "        \x7b name = \"".data ++
        ((lua_escape a).data ++ "\", tier = \"gold\" \x7d,".data) := by
  rw [entryLine_data]
  have h : "\", tier = \"".data ++ ("gold".data ++ "\" \x7d,".data) =
      "\", tier = \"gold\" \x7d,".data := by decide
  rw [h]

theorem entryLine_silver_data (b : String) :
    (entryLine b "silver").data =
      "        \x7b name = \"".data ++
        ((lua_escape b).data ++ "\", tier = \"silver\" \x7d,".data) := by
  rw [entryLine_data]
  have h : "\", tier = \"".data ++ ("silver".data ++ "\" \x7d,".data) =
      "\", tier = \"silver\" \x7d,".data := by decide
  rw [h]

theorem entryLine_take9 (n t : String) :
    (entryLine n t).data.take 9 = "        \x7b".data := by
  rw [entryLine_data, List.take_append_of_le_length (by decide)]
  decide

theorem fixed_take9 :
    ∀ l ∈ headerLines ++ footerLines ++ [placeholderLine],
      l.data.take 9 ≠ "        \x7b".data := by
  decide

/-- No fixed template line (header, footer, placeholder) is an entry line. -/
theorem fixedLine_ne_entryLine {l : String}
    (hl : l ∈ headerLines ∨ l ∈ footerLines ∨ l = placeholderLine)
    (n t : String) : l ≠ entryLine n t := by
  intro h
  have hmem : l ∈ headerLines ++ footerLines ++ [placeholderLine] := by
    simp only [List.mem_append, List.mem_singleton]
    tauto
  have h9 : l.data.take 9 = "        \x7b".data := by
    rw [h, entryLine_take9]
  exact fixed_take9 l hmem h9

/-- A gold entry line is never equal to a silver entry line: the fixed
suffixes after the escaped name differ. -/
theorem entryLine_gold_ne_silver (a b : String) :
    entryLine a "gold" ≠ entryLine b "silver" := by
  intro h
  have hd := congrArg String.data h
  rw [entryLine_gold_data, entryLine_silver_data] at hd
  have hr := congrArg List.reverse hd
  simp only [List.reverse_append] at hr
  rw [List.append_assoc, List.append_assoc] at hr
  have h5 := congrArg (List.take 5) hr
  rw [List.take_append_of_le_length (by decide),
    List.take_append_of_le_length (by decide)] at h5
  exact absurd h5 (by decide)

theorem headerLines_length : headerLines.length = 18 := by decide

/-- Any index holding a gold entry line lies in the gold block
(before index `18 + g.length`). -/
theorem gold_index_lt (g s : List String) (i : Nat) (a : String)
    (hi : (generateLuaLines g s)[i]? = some (entryLine a "gold")) :
    i < 18 + g.length := by
  unfold generateLuaLines entrySection at hi
  rw [List.append_assoc] at hi
  by_cases hgs : g.isEmpty && s.isEmpty
  · exfalso
    rw [if_pos hgs] at hi
    have hm := List.getElem?_mem hi
    simp only [List.mem_append, List.mem_singleton] at hm
    exact fixedLine_ne_entryLine (by tauto) a "gold" rfl
  · rw [if_neg hgs] at hi
    rcases Nat.lt_or_ge i headerLines.length with hlt | hge
    · exfalso
      rw [List.getElem?_append_left hlt] at hi
      exact fixedLine_ne_entryLine (Or.inl (List.getElem?_mem hi)) a "gold" rfl
    · rw [List.getElem?_append_right hge, List.append_assoc] at hi
      rcases Nat.lt_or_ge (i - headerLines.length)
          (g.map (fun n => entryLine n "gold")).length with h1 | h1
      · rw [List.length_map] at h1
        rw [headerLines_length] at hge h1
        omega
      · exfalso
        rw [List.getElem?_append_right h1] at hi
        rcases Nat.lt_or_ge (i - headerLines.length -
            (g.map (fun n => entryLine n "gold")).length)
            (s.map (fun n => entryLine n "silver")).length with h2 | h2
        · rw [List.getElem?_append_left h2, List.getElem?_map] at hi
          rcases Option.map_eq_some'.mp hi with ⟨n, _, hn⟩
          exact entryLine_gold_ne_silver a n hn.symm
        · rw [List.getElem?_append_right h2] at hi
          exact fixedLine_ne_entryLine
            (Or.inr (Or.inl (List.getElem?_mem hi))) a "gold" rfl

/-- Any index holding a silver entry line lies at or beyond the end of
the gold block (index `18 + g.length`). -/
theorem silver_index_ge (g s : List String) (j : Nat) (b : String)
    (hj : (generateLuaLines g s)[j]? = some (entryLine b "silver")) :
    18 + g.length ≤ j := by
  unfold generateLuaLines entrySection at hj
  rw [List.append_assoc] at hj
  by_cases hgs : g.isEmpty && s.isEmpty
  · exfalso
    rw [if_pos hgs] at hj
    have hm := List.getElem?_mem hj
    simp only [List.mem_append, List.mem_singleton] at hm
    exact fixedLine_ne_entryLine (by tauto) b "silver" rfl
  · rw [if_neg hgs] at hj
    rcases Nat.lt_or_ge j headerLines.length with hlt | hge
    · exfalso
      rw [List.getElem?_append_left hlt] at hj
      exact fixedLine_ne_entryLine (Or.inl (List.getElem?_mem hj)) b "silver" rfl
    · rw [List.getElem?_append_right hge, List.append_assoc] at hj
      rcases Nat.lt_or_ge (j - headerLines.length)
          (g.map (fun n => entryLine n "gold")).length with h1 | h1
      · exfalso
        rw [List.getElem?_append_left h1, List.getElem?_map] at hj
        rcases Option.map_eq_some'.mp hj with ⟨n, _, hn⟩
        exact entryLine_gold_ne_silver n b hn
      · rw [List.length_map] at h1
        rw [headerLines_length] at hge h1
        omega

/-- C2: the two name lists returned by `categorize_members` are sorted in
case-insensitive lexicographic order, and in the document produced by the
renderer every gold entry line appears at a strictly smaller line index
than every silver entry line. -/
theorem sorted_tiers_and_gold_first (ms : List Member) (g s : List String)
    (i j : Nat) (a b : String)
    (hi : (generateLuaLines g s)[i]? = some (entryLine a "gold"))
    (hj : (generateLuaLines g s)[j]? = some (entryLine b "silver")) :
    List.Sorted ciLe (categorize_members ms).1 ∧
    List.Sorted ciLe (categorize_members ms).2 ∧ i < j :=
  ⟨List.sorted_insertionSort ciLe _, List.sorted_insertionSort ciLe _,
    lt_of_lt_of_le (gold_index_lt g s i a hi) (silver_index_ge g s j b hj)⟩

/-- Witness for `sorted_tiers_and_gold_first` at a concrete document:
line 18 is the gold entry, line 19 the silver one. -/
theorem sorted_tiers_and_gold_first_witness :
    List.Sorted ciLe (categorize_members []).1 ∧
    List.Sorted ciLe (categorize_members []).2 ∧ 18 < 19 :=
  sorted_tiers_and_gold_first [] ["A"] ["B"] 18 19 "A" "B"
    (by decide) (by decide)

/-- C8: the placeholder comment line occurs in the rendered document iff
both name lists are empty (in which case it replaces the entry list);
when either list is non-empty no placeholder is emitted. -/
theorem placeholder_iff_both_empty (g s : List String) :
    placeholderLine ∈ generateLuaLines g s ↔ g = [] ∧ s = [] := by
  unfold generateLuaLines entrySection
  by_cases hgs : g.isEmpty && s.isEmpty
  · have hg : g = [] ∧ s = [] := by
      simpa [List.isEmpty_iff] using hgs
    rw [if_pos hgs]
    constructor
    · intro _; exact hg
    · intro _; simp [List.mem_append]
  · rw [if_neg hgs]
    constructor
    · intro hmem
      exfalso
      simp only [List.mem_append, List.mem_map] at hmem
      rcases hmem with (hmem | ⟨n, _, hn⟩ | ⟨n, _, hn⟩) | hmem
      · exact absurd hmem (by decide)
      · exact fixedLine_ne_entryLine (Or.inr (Or.inr rfl)) n "gold" hn.symm
      · exact fixedLine_ne_entryLine (Or.inr (Or.inr rfl)) n "silver" hn.symm
      · exact absurd hmem (by decide)
    · rintro ⟨rfl, rfl⟩
      simp at hgs

/-- C9: rendering is a pure deterministic function — identical
`(gold, silver)` inputs produce identical document text — and the first
three lines are the fixed header comment block, which is a constant
containing no timestamp. -/
theorem generate_lua_deterministic (g1 s1 g2 s2 : List String)
    (hg : g1 = g2) (hs : s1 = s2) :
    generate_lua g1 s1 = generate_lua g2 s2 ∧
    (generateLuaLines g1 s1).take 3 =
      [ "-- AUTO-GENERATED FILE - DO NOT EDIT MANUALLY"
      , "-- This file is automatically updated by GitHub Actions from Patreon data"
      , "-- Last updated: See git commit timestamp" ] := by
  subst hg
  subst hs
  refine ⟨rfl, ?_⟩
  unfold generateLuaLines
  rw [List.append_assoc, List.take_append_of_le_length (by decide)]
  decide

/-- Witness for `generate_lua_deterministic` at concrete inputs. -/
theorem generate_lua_deterministic_witness :
    generate_lua ["x"] ["y"] = generate_lua ["x"] ["y"] ∧
    (generateLuaLines ["x"] ["y"]).take 3 =
      [ "-- AUTO-GENERATED FILE - DO NOT EDIT MANUALLY"
      , "-- This file is automatically updated by GitHub Actions from Patreon data"
      , "-- Last updated: See git commit timestamp" ] :=
  generate_lua_deterministic ["x"] ["y"] ["x"] ["y"] rfl rfl

/-! ## Lemmas: escaping -/

theorem pyReplace_append (needle : Char) (repl a b : List Char) :
    pyReplace needle repl (a ++ b) =
      pyReplace needle repl a ++ pyReplace needle repl b := by
  induction a with
  | nil => rfl
  | cons c a ih => simp [pyReplace, ih]

theorem luaEscapeData_append (a b : List Char) :
    luaEscapeData (a ++ b) = luaEscapeData a ++ luaEscapeData b := by
  simp [luaEscapeData, pyReplace_append]

/-- The per-character action of the composed replace chain. -/
def escChar (c : Char) : List Char :=
  if c = '\\' then ['\\', '\\']
  else if c = '\"' then ['\\', '\"']
  else if c = '\n' then ['\\', 'n']
  else if c = '\r' then ['\\', 'r']
  else if c = '\t' then ['\\', 't']
  else if c = '\x00' then []
  else [c]

theorem luaEscapeData_singleton (c : Char) : luaEscapeData [c] = escChar c := by
  by_cases h1 : c = '\\'
  · subst h1; decide
  · by_cases h2 : c = '\"'
    · subst h2; decide
    · by_cases h3 : c = '\n'
      · subst h3; decide
      · by_cases h4 : c = '\r'
        · subst h4; decide
        · by_cases h5 : c = '\t'
          · subst h5; decide
          · by_cases h6 : c = '\x00'
            · subst h6; decide
            · simp [luaEscapeData, pyReplace, escChar, h1, h2, h3, h4, h5, h6]

theorem luaEscapeData_cons (c : Char) (l : List Char) :
    luaEscapeData (c :: l) = escChar c ++ luaEscapeData l := by
  rw [show c :: l = [c] ++ l from rfl, luaEscapeData_append, luaEscapeData_singleton]

theorem luaUnescape_escape (l : List Char) :
    luaUnescape (luaEscapeData l) = some (l.filter (fun c => c != '\x00')) := by
  induction l with
  | nil => rfl
  | cons c l ih =>
    rw [luaEscapeData_cons]
    by_cases h1 : c = '\\'
    · subst h1; simp [escChar, luaUnescape, ih]
    · by_cases h2 : c = '\"'
      · subst h2; simp [escChar, luaUnescape, ih]
      · by_cases h3 : c = '\n'
        · subst h3; simp [escChar, luaUnescape, ih]
        · by_cases h4 : c = '\r'
          · subst h4; simp [escChar, luaUnescape, ih]
          · by_cases h5 : c = '\t'
            · subst h5; simp [escChar, luaUnescape, ih]
            · by_cases h6 : c = '\x00'
              · subst h6; simp [escChar, luaUnescape, ih]
              · rw [show escChar c = [c] by simp [escChar, h1, h2, h3, h4, h5, h6]]
                rw [List.singleton_append, luaUnescape.eq_def]
                simp [h1, h2, h6, ih]

/-- C5: `lua_escape` maps backslash, double quote, newline, carriage
return and tab to their two-character escape sequences and deletes null
bytes, and the escaped string, read back as the contents of a
double-quoted string literal of the target syntax, denotes the original
name with exactly the null bytes removed. -/
theorem lua_escape_spec (s : String) :
    luaUnescape (lua_escape s).data =
      some (s.data.filter (fun c => c != '\x00')) ∧
    lua_escape ⟨['\\']⟩ = "\\\\" ∧ lua_escape ⟨['\"']⟩ = "\\\"" ∧
    lua_escape ⟨['\n']⟩ = "\\n" ∧ lua_escape ⟨['\r']⟩ = "\\r" ∧
    lua_escape ⟨['\t']⟩ = "\\t" ∧ lua_escape ⟨['\x00']⟩ = "" :=
  ⟨luaUnescape_escape s.data, by decide, by decide, by decide, by decide,
    by decide, by decide⟩

/-! ## Lemmas: pagination -/

theorem fetchGo_count_le (resp : Nat → Page) (fuel : Nat) (url prev : Option String)
    (k : Nat) (acc : List Member) :
    (fetchGo resp fuel url prev k acc).2 ≤ k + fuel := by
  induction fuel generalizing url prev k acc with
  | zero => cases url <;> simp [fetchGo]
  | succ f ih =>
    cases url with
    | none => simp [fetchGo]
    | some u =>
      rw [fetchGo]
      split
      · simp
      · exact le_trans (ih _ _ _ _) (by omega)

/-- C6: the paginated fetch terminates for every response sequence — it
performs at most 100 requests (the hard page cap), it stops as soon as
the `next` link is absent, and when a response's `next` link equals the
URL that was just fetched it fetches that one page and stops instead of
looping. -/
theorem fetch_pagination_guard (resp : Nat → Page) (firstUrl : String)
    (fuel k : Nat) (u : String) (prev : Option String) (acc : List Member)
    (hrep : (resp k).next = some u) (hne : some u ≠ prev) :
    (fetch_all_members resp firstUrl).2 ≤ 100 ∧
    fetchGo resp (fuel + 1) none prev k acc = (acc, k) ∧
    fetchGo resp (fuel + 1) (some u) prev k acc =
      (acc ++ (resp k).members, k + 1) := by
  refine ⟨?_, rfl, ?_⟩
  · have h := fetchGo_count_le resp 100 (some firstUrl) none 0 []
    simpa [fetch_all_members] using h
  · rw [fetchGo, if_neg hne]
    simp only [hrep]
    cases fuel with
    | zero => rfl
    | succ f => rw [fetchGo, if_pos rfl]

/-- Witness for `fetch_pagination_guard`: a malformed API that always
returns the same `next` URL is fetched exactly once more and stopped. -/
theorem fetch_pagination_guard_witness :
    (fetch_all_members (fun _ => ⟨[], some "u"⟩) "u0").2 ≤ 100 ∧
    fetchGo (fun _ => ⟨[], some "u"⟩) 1 none none 0 [] = ([], 0) ∧
    fetchGo (fun _ => ⟨[], some "u"⟩) 1 (some "u") none 0 [] = ([], 1) :=
  fetch_pagination_guard (fun _ => ⟨[], some "u"⟩) "u0" 0 0 "u" none []
    rfl (by decide)

/-! ## Lemmas: the publish / notify step -/

/-- C3: with a prior on-disk document, if its comment-stripped lines
equal those of the freshly rendered document then nothing is written,
the on-disk content is unchanged and `changed=false` is reported;
otherwise the new document is written and `changed=true` plus the two
tier counts are reported. -/
theorem publish_diff_behaviour (e : List String) (ms : List Member) (ok : Bool) :
    if stripCommentLines e =
        stripCommentLines
          (generateLuaLines (categorize_members ms).1 (categorize_members ms).2) then
      (runMain (some e) ms ok).wroteFile = false ∧
      (runMain (some e) ms ok).fileContent = e ∧
      (runMain (some e) ms ok).ghOutput = ["changed=false"]
    else
      (runMain (some e) ms ok).wroteFile = true ∧
      (runMain (some e) ms ok).fileContent =
        generateLuaLines (categorize_members ms).1 (categorize_members ms).2 ∧
      (runMain (some e) ms ok).ghOutput =
        ["changed=true",
         "paying_count=" ++ toString (categorize_members ms).1.length,
         "follower_count=" ++ toString (categorize_members ms).2.length] := by
  by_cases h : stripCommentLines e =
      stripCommentLines
        (generateLuaLines (categorize_members ms).1 (categorize_members ms).2)
  · rw [if_pos h]
    simp [runMain, h]
  · rw [if_neg h]
    simp [runMain, h]

/-- C7: in every run that attempts the webhook delivery and has it fail,
the exit code is still zero, the file outcome (content, whether written)
and the orchestration report are identical to the successful-delivery
run, and the failure is logged. -/
theorem notification_failure_nonfatal (prior : Option (List String))
    (ms : List Member)
    (hattempt : (runMain prior ms false).notifications ≠ []) :
    (runMain prior ms false).exitCode = 0 ∧
    (runMain prior ms false).fileContent = (runMain prior ms true).fileContent ∧
    (runMain prior ms false).wroteFile = (runMain prior ms true).wroteFile ∧
    (runMain prior ms false).ghOutput = (runMain prior ms true).ghOutput ∧
    "Failed to send Discord notification" ∈ (runMain prior ms false).logs := by
  cases prior with
  | none => simp [runMain] at hattempt
  | some e =>
    by_cases h : stripCommentLines e =
        stripCommentLines
          (generateLuaLines (categorize_members ms).1 (categorize_members ms).2)
    · simp [runMain, h] at hattempt
    · by_cases hnl : (newPatrons
          (parse_existing_patrons (joinLines e))
          (categorize_members ms).1 (categorize_members ms).2).isEmpty
      · simp [runMain, h, hnl] at hattempt
      · simp [runMain, h, hnl]

/-- Witness for `notification_failure_nonfatal`: a run over a trivial
prior document with one new paying patron attempts the notification. -/
theorem notification_failure_nonfatal_witness :
    (runMain (some [""])
        [{ name := "Amy", status := some "active_patron", amount_cents := 500 }]
        false).exitCode = 0 ∧
    (runMain (some [""])
        [{ name := "Amy", status := some "active_patron", amount_cents := 500 }]
        false).fileContent =
      (runMain (some [""])
        [{ name := "Amy", status := some "active_patron", amount_cents := 500 }]
        true).fileContent ∧
    (runMain (some [""])
        [{ name := "Amy", status := some "active_patron", amount_cents := 500 }]
        false).wroteFile =
      (runMain (some [""])
        [{ name := "Amy", status := some "active_patron", amount_cents := 500 }]
        true).wroteFile ∧
    (runMain (some [""])
        [{ name := "Amy", status := some "active_patron", amount_cents := 500 }]
        false).ghOutput =
      (runMain (some [""])
        [{ name := "Amy", status := some "active_patron", amount_cents := 500 }]
        true).ghOutput ∧
    "Failed to send Discord notification" ∈
      (runMain (some [""])
        [{ name := "Amy", status := some "active_patron", amount_cents := 500 }]
        false).logs :=
  notification_failure_nonfatal (some [""])
    [{ name := "Amy", status := some "active_patron", amount_cents := 500 }]
    (by decide)

/-! ## Lemmas: the regex scanner -/

theorem expectLit_length {pat l r : List Char} (h : expectLit pat l = some r) :
    r.length ≤ l.length := by
  induction pat generalizing l with
  | nil => simp [expectLit] at h; simp [h]
  | cons p ps ih =>
    cases l with
    | nil => simp [expectLit] at h
    | cons c cs =>
      by_cases hc : c = p
      · simp only [expectLit, hc, if_pos rfl] at h
        exact le_trans (ih h) (by simp)
      · simp [expectLit, hc] at h

theorem dropWhile_length_le (p : Char → Bool) (l : List Char) :
    (l.dropWhile p).length ≤ l.length := by
  induction l with
  | nil => simp
  | cons c r ih =>
    by_cases h : p c
    · rw [List.dropWhile_cons_of_pos h]
      exact le_trans ih (by simp)
    · rw [List.dropWhile_cons_of_neg h]

theorem matchName_length {r6 : List Char} {p : String × List Char}
    (h : matchName r6 = some p) : p.2.length < r6.length := by
  unfold matchName at h
  cases h8 : r6.dropWhile (fun c => !(c = '\"')) with
  | nil => simp only [h8] at h; cases h
  | cons d r8 =>
    simp only [h8] at h
    by_cases hcap : (r6.takeWhile (fun c => !(c = '\"'))).isEmpty
    · simp [hcap] at h
    · by_cases hd : d = '\"'
      · simp only [hcap, hd, if_neg, if_pos rfl, Bool.false_eq_true,
          not_false_iff, if_false, if_true, Option.some.injEq] at h
        have hw := dropWhile_length_le (fun c => !(c = '\"')) r6
        rw [h8] at hw
        simp only [List.length_cons] at hw
        have : p.2 = r8 := by rw [← h]
        rw [this]
        omega
      · simp [hcap, hd] at h

theorem matchCore_length {r : List Char} {p : String × List Char}
    (h : matchCore r = some p) : p.2.length < r.length := by
  unfold matchCore at h
  rcases Option.bind_eq_some.mp h with ⟨r2, h2, h'⟩
  rcases Option.bind_eq_some.mp h' with ⟨r4, h4, h''⟩
  rcases Option.bind_eq_some.mp h'' with ⟨r6, h6, hn⟩
  have l1 := matchName_length hn
  have l2 := expectLit_length h6
  have l3 := dropWhile_length_le isPySpace r4
  have l4 := expectLit_length h4
  have l5 := dropWhile_length_le isPySpace r2
  have l6 := expectLit_length h2
  have l7 := dropWhile_length_le isPySpace r
  omega

theorem matchAt_length {l : List Char} {p : String × List Char}
    (h : matchAt l = some p) : p.2.length < l.length := by
  cases l with
  | nil => simp [matchAt] at h
  | cons c r =>
    by_cases hc : c = '\x7b'
    · simp only [matchAt, hc, if_pos rfl] at h
      exact lt_trans (matchCore_length h) (by simp)
    · simp [matchAt, hc] at h

theorem matchAt_none_of_ne {c : Char} (r : List Char) (hc : ¬ c = '\x7b') :
    matchAt (c :: r) = none := by
  simp [matchAt, hc]

theorem findAux_cons_none (f : Nat) {c : Char} {r : List Char}
    (hm : matchAt (c :: r) = none) : findAux (f + 1) (c :: r) = findAux f r := by
  simp only [findAux, hm]

theorem findAux_cons_some (f : Nat) {c : Char} {r : List Char} {n : String}
    {rest : List Char} (hm : matchAt (c :: r) = some (n, rest)) :
    findAux (f + 1) (c :: r) = n :: findAux f rest := by
  simp only [findAux, hm]

theorem findAux_congr (f1 : Nat) :
    ∀ (f2 : Nat) (l : List Char), l.length ≤ f1 → l.length ≤ f2 →
      findAux f1 l = findAux f2 l := by
  induction f1 with
  | zero =>
    intro f2 l h1 _
    have : l = [] := List.length_eq_zero.mp (Nat.le_zero.mp h1)
    subst this
    cases f2 <;> rfl
  | succ f ih =>
    intro f2 l h1 h2
    cases l with
    | nil => cases f2 <;> rfl
    | cons c r =>
      cases f2 with
      | zero => simp at h2
      | succ f2' =>
        cases hm : matchAt (c :: r) with
        | none =>
          rw [findAux_cons_none f hm, findAux_cons_none f2' hm]
          have hr : r.length ≤ f := by simp at h1; omega
          have hr2 : r.length ≤ f2' := by simp at h2; omega
          exact ih f2' r hr hr2
        | some p =>
          obtain ⟨n, rest⟩ := p
          rw [findAux_cons_some f hm, findAux_cons_some f2' hm]
          have hp := matchAt_length hm
          have hr : rest.length ≤ f := by simp at h1 hp; omega
          have hr2 : rest.length ≤ f2' := by simp at h2 hp; omega
          rw [ih f2' rest hr hr2]

/-- The scanner with the canonical fuel. -/
def findM (l : List Char) : List String :=
  findAux l.length l

theorem findM_cons_none {c : Char} {r : List Char}
    (hm : matchAt (c :: r) = none) : findM (c :: r) = findM r := by
  unfold findM
  rw [List.length_cons, findAux_cons_none r.length hm]

theorem findM_cons_some {c : Char} {r : List Char} {n : String}
    {rest : List Char} (hm : matchAt (c :: r) = some (n, rest)) :
    findM (c :: r) = n :: findM rest := by
  unfold findM
  rw [List.length_cons, findAux_cons_some r.length hm]
  have hlen : rest.length ≤ r.length := by
    have := matchAt_length hm
    simp at this
    omega
  rw [findAux_congr r.length rest.length rest hlen le_rfl]

theorem findM_append_no_brace (pre : List Char) (rest : List Char)
    (h : ∀ c ∈ pre, ¬ c = '\x7b') : findM (pre ++ rest) = findM rest := by
  induction pre with
  | nil => rfl
  | cons c pre' ih =>
    rw [List.cons_append,
      findM_cons_none (matchAt_none_of_ne _ (h c (List.mem_cons_self c pre'))),
      ih (fun x hx => h x (List.mem_cons_of_mem c hx))]

theorem takeWhile_append_stop {p : Char → Bool} {a : List Char} (c : Char)
    (b : List Char) (ha : ∀ x ∈ a, p x = true) (hc : p c = false) :
    (a ++ c :: b).takeWhile p = a := by
  induction a with
  | nil => simp [List.takeWhile_cons, hc]
  | cons x a' ih =>
    rw [List.cons_append, List.takeWhile_cons,
      ha x (List.mem_cons_self x a'),
      ih (fun y hy => ha y (List.mem_cons_of_mem x hy)), if_pos rfl]

theorem dropWhile_append_stop {p : Char → Bool} {a : List Char} (c : Char)
    (b : List Char) (ha : ∀ x ∈ a, p x = true) (hc : p c = false) :
    (a ++ c :: b).dropWhile p = c :: b := by
  induction a with
  | nil =>
    have hcp : ¬ p c = true := by simp [hc]
    rw [List.nil_append, List.dropWhile_cons_of_neg hcp]
  | cons x a' ih =>
    rw [List.cons_append,
      List.dropWhile_cons_of_pos (ha x (List.mem_cons_self x a')),
      ih (fun y hy => ha y (List.mem_cons_of_mem x hy))]

/-- Matching succeeds at the head of an entry: after the opening brace
the scanner consumes ` name = "`, captures the (quote-free, non-empty)
name, consumes the closing quote, and leaves the rest. -/
theorem matchCore_entry (n : String) (tail : List Char)
    (hne : n.data ≠ []) (hq : ∀ c ∈ n.data, ¬ c = '\"') :
    matchCore
      ([' ', 'n', 'a', 'm', 'e', ' ', '=', ' ', '\"'] ++ (n.data ++ ('\"' :: tail))) =
      some (n, tail) := by
  unfold matchCore
  rw [show ([' ', 'n', 'a', 'm', 'e', ' ', '=', ' ', '\"'] ++
      (n.data ++ ('\"' :: tail))) =
      [' '] ++ ('n' :: (['a', 'm', 'e', ' ', '=', ' ', '\"'] ++
        (n.data ++ ('\"' :: tail)))) by simp]
  rw [dropWhile_append_stop _ _ (by decide) (by decide)]
  rw [show expectLit ['n', 'a', 'm', 'e']
      ('n' :: (['a', 'm', 'e', ' ', '=', ' ', '\"'] ++ (n.data ++ ('\"' :: tail)))) =
      some ([' ', '=', ' ', '\"'] ++ (n.data ++ ('\"' :: tail))) by simp [expectLit]]
  rw [Option.some_bind]
  rw [show ([' ', '=', ' ', '\"'] ++ (n.data ++ ('\"' :: tail))) =
      [' '] ++ ('=' :: ([' ', '\"'] ++ (n.data ++ ('\"' :: tail)))) by simp]
  rw [dropWhile_append_stop _ _ (by decide) (by decide)]
  rw [show expectLit ['=']
      ('=' :: ([' ', '\"'] ++ (n.data ++ ('\"' :: tail)))) =
      some ([' ', '\"'] ++ (n.data ++ ('\"' :: tail))) by simp [expectLit]]
  rw [Option.some_bind]
  rw [show ([' ', '\"'] ++ (n.data ++ ('\"' :: tail))) =
      [' '] ++ ('\"' :: (n.data ++ ('\"' :: tail))) by simp]
  rw [dropWhile_append_stop _ _ (by decide) (by decide)]
  rw [show expectLit ['\"'] ('\"' :: (n.data ++ ('\"' :: tail))) =
      some (n.data ++ ('\"' :: tail)) by simp [expectLit]]
  rw [Option.some_bind]
  unfold matchName
  have hqb : ∀ x ∈ n.data, (fun c => !(c = '\"')) x = true := by
    intro x hx
    simp [hq x hx]
  rw [takeWhile_append_stop '\"' tail hqb (by simp),
    dropWhile_append_stop '\"' tail hqb (by simp)]
  simp only [List.isEmpty_iff]
  rw [if_neg hne]
  simp

/-! ## Lemmas: scanning the generated document -/

/-- Character form of the lines of a document after its first line: each
subsequent line is preceded by the separating newline. -/
def tailJoin : List String → List Char
  | [] => []
  | l :: ls => '\n' :: (l.data ++ tailJoin ls)

/-- The header text of the generated document up to (excluding) the
opening brace of `Patrons:AddPatrons({`; it contains no brace. -/
def headerPre : String :=
  "-- AUTO-GENERATED FILE - DO NOT EDIT MANUALLY\n-- This file is automatically updated by GitHub Actions from Patreon data\n-- Last updated: See git commit timestamp\n\nlocal PeaversCommons = _G.PeaversCommons\nlocal Patrons = PeaversCommons.Patrons\n\nlocal function InitializePatrons()\n    if not Patrons or not Patrons.AddPatrons then\n        return false\n    end\n\n    -- Clear existing patrons to prevent duplicates on reload\n    if Patrons.Clear then\n        Patrons:Clear()\n    end\n\n    Patrons:AddPatrons("

theorem tailJoin_append (a b : List String) :
    tailJoin (a ++ b) = tailJoin a ++ tailJoin b := by
  induction a with
  | nil => rfl
  | cons l ls ih => simp [tailJoin, ih]

theorem joinLines_data (x : String) (ls : List String) :
    (joinLines (x :: ls)).data = x.data ++ tailJoin ls := by
  induction ls generalizing x with
  | nil => simp [joinLines, tailJoin]
  | cons y ls ih =>
    show (x ++ "\n" ++ joinLines (y :: ls)).data = _
    rw [String.data_append, String.data_append, ih y]
    simp [tailJoin]

set_option maxRecDepth 100000 in
theorem headerChars_eq :
    "-- AUTO-GENERATED FILE - DO NOT EDIT MANUALLY".data ++
        tailJoin (headerLines.drop 1) =
      headerPre.data ++ ['\x7b'] := by
  decide

set_option maxRecDepth 100000 in
theorem headerPre_no_brace : ∀ c ∈ headerPre.data, ¬ c = '\x7b' := by
  decide

/-- Matching fails when, after the opening brace and whitespace, the next
character is not the `n` of `name`. -/
theorem matchCore_none {rest : List Char} {c : Char} {r' : List Char}
    (hd : rest.dropWhile isPySpace = c :: r') (hc : ¬ c = 'n') :
    matchCore rest = none := by
  unfold matchCore
  rw [hd, show expectLit ['n', 'a', 'm', 'e'] (c :: r') = none by simp [expectLit, hc]]
  rfl

/-- Names rendered by the script whose round-trip we track: non-empty and
free of every character that `lua_escape` rewrites. -/
def goodName (x : String) : Prop :=
  x.data ≠ [] ∧ ∀ c ∈ x.data,
    ¬(c = '\\' ∨ c = '\"' ∨ c = '\n' ∨ c = '\r' ∨ c = '\t' ∨ c = '\x00')

instance : DecidablePred goodName := fun x => by
  unfold goodName; infer_instance

theorem luaEscapeData_id {l : List Char}
    (h : ∀ c ∈ l,
      ¬(c = '\\' ∨ c = '\"' ∨ c = '\n' ∨ c = '\r' ∨ c = '\t' ∨ c = '\x00')) :
    luaEscapeData l = l := by
  induction l with
  | nil => rfl
  | cons c r ih =>
    have hc := h c (List.mem_cons_self c r)
    push_neg at hc
    obtain ⟨h1, h2, h3, h4, h5, h6⟩ := hc
    rw [luaEscapeData_cons,
      show escChar c = [c] by simp [escChar, h1, h2, h3, h4, h5, h6],
      ih (fun x hx => h x (List.mem_cons_of_mem c hx)), List.singleton_append]

theorem entryPre_data :
    "        \x7b name = \"".data =
      [' ', ' ', ' ', ' ', ' ', ' ', ' ', ' '] ++
        ('\x7b' :: [' ', 'n', 'a', 'm', 'e', ' ', '=', ' ', '\"']) := by
  decide

theorem entryMid_data :
    "\", tier = \"".data =
      '\"' :: [',', ' ', 't', 'i', 'e', 'r', ' ', '=', ' ', '\"'] := by
  decide

theorem entryEnd_data : "\" \x7d,".data = ['\"', ' ', '\x7d', ','] := by
  decide

/-- An entry line as it occurs in the character stream: the separating
newline followed by the line's characters. -/
def entryChunk (n t : String) : List Char :=
  '\n' :: (entryLine n t).data

theorem findM_entryChunk (n t : String) (rest : List Char)
    (hne : n.data ≠ []) (hq : ∀ c ∈ n.data, ¬ c = '\"')
    (hesc : luaEscapeData n.data = n.data)
    (ht : ∀ c ∈ t.data, ¬ c = '\x7b') :
    findM (entryChunk n t ++ rest) = n :: findM rest := by
  have e4 : (lua_escape n).data = n.data := hesc
  have hshape : entryChunk n t ++ rest =
      ['\n', ' ', ' ', ' ', ' ', ' ', ' ', ' ', ' '] ++
        ('\x7b' :: ([' ', 'n', 'a', 'm', 'e', ' ', '=', ' ', '\"'] ++
          (n.data ++ ('\"' :: ([',', ' ', 't', 'i', 'e', 'r', ' ', '=', ' ', '\"'] ++
            (t.data ++ (['\"', ' ', '\x7d', ','] ++ rest))))))) := by
    simp [entryChunk, entryLine_data, e4, entryPre_data, entryMid_data, entryEnd_data,
      List.append_assoc]
  rw [hshape, findM_append_no_brace _ _ (by decide)]
  have hAt : matchAt ('\x7b' :: ([' ', 'n', 'a', 'm', 'e', ' ', '=', ' ', '\"'] ++
      (n.data ++ ('\"' :: ([',', ' ', 't', 'i', 'e', 'r', ' ', '=', ' ', '\"'] ++
        (t.data ++ (['\"', ' ', '\x7d', ','] ++ rest))))))) =
      some (n, [',', ' ', 't', 'i', 'e', 'r', ' ', '=', ' ', '\"'] ++
        (t.data ++ (['\"', ' ', '\x7d', ','] ++ rest))) := by
    rw [show matchAt ('\x7b' :: ([' ', 'n', 'a', 'm', 'e', ' ', '=', ' ', '\"'] ++
        (n.data ++ ('\"' :: ([',', ' ', 't', 'i', 'e', 'r', ' ', '=', ' ', '\"'] ++
          (t.data ++ (['\"', ' ', '\x7d', ','] ++ rest))))))) =
        matchCore ([' ', 'n', 'a', 'm', 'e', ' ', '=', ' ', '\"'] ++
          (n.data ++ ('\"' :: ([',', ' ', 't', 'i', 'e', 'r', ' ', '=', ' ', '\"'] ++
            (t.data ++ (['\"', ' ', '\x7d', ','] ++ rest)))))) by simp [matchAt]]
    exact matchCore_entry n _ hne hq
  rw [findM_cons_some hAt, findM_append_no_brace _ _ (by decide),
    findM_append_no_brace _ _ ht, findM_append_no_brace _ _ (by decide)]

theorem findM_entries (t : String) (L : List String) (K : List Char)
    (hgood : ∀ nm ∈ L, nm.data ≠ [] ∧ (∀ c ∈ nm.data, ¬ c = '\"') ∧
      luaEscapeData nm.data = nm.data)
    (ht : ∀ c ∈ t.data, ¬ c = '\x7b') :
    findM (tailJoin (L.map (fun nm => entryLine nm t)) ++ K) = L ++ findM K := by
  induction L with
  | nil => rfl
  | cons n L' ih =>
    obtain ⟨hne, hq, hesc⟩ := hgood n (List.mem_cons_self n L')
    have hstep : tailJoin ((n :: L').map (fun nm => entryLine nm t)) ++ K =
        entryChunk n t ++ (tailJoin (L'.map (fun nm => entryLine nm t)) ++ K) := by
      simp [tailJoin, entryChunk, List.append_assoc]
    rw [hstep, findM_entryChunk n t _ hne hq hesc ht,
      ih (fun nm hnm => hgood nm (List.mem_cons_of_mem n hnm))]
    rfl

theorem footer_no_brace : ∀ c ∈ tailJoin footerLines, ¬ c = '\x7b' := by
  decide

theorem findM_footer : findM (tailJoin footerLines) = [] := by
  rw [show tailJoin footerLines = tailJoin footerLines ++ [] by simp,
    findM_append_no_brace _ _ footer_no_brace]
  rfl

/-- After the newline that follows `AddPatrons({`, whitespace skipping
stops at the opening brace of the first entry line. -/
theorem exists_entry_drop (n t : String) (Y : List Char) :
    ∃ Z, List.dropWhile isPySpace ('\n' :: ((entryLine n t).data ++ Y)) =
      '\x7b' :: Z := by
  have hshape : '\n' :: ((entryLine n t).data ++ Y) =
      ['\n', ' ', ' ', ' ', ' ', ' ', ' ', ' ', ' '] ++
        ('\x7b' :: (([' ', 'n', 'a', 'm', 'e', ' ', '=', ' ', '\"'] ++
          ((lua_escape n).data ++ ("\", tier = \"".data ++
            (t.data ++ "\" \x7d,".data)))) ++ Y)) := by
    simp [entryLine_data, entryPre_data, List.append_assoc]
  rw [hshape, dropWhile_append_stop _ _ (by decide) (by decide)]
  exact ⟨_, rfl⟩

set_option maxRecDepth 1000000 in
/-- Round trip of the renderer through the regex re-parser: on a
document generated from good names, the scanner returns exactly the two
name lists in order. -/
theorem parse_generate (g s : List String)
    (hgood : ∀ x ∈ g ++ s, goodName x) :
    parse_existing_patrons (generate_lua g s) = g ++ s := by
  by_cases hgs : g.isEmpty && s.isEmpty
  · obtain ⟨rfl, rfl⟩ : g = [] ∧ s = [] := by simpa [List.isEmpty_iff] using hgs
    decide
  · have hparse : parse_existing_patrons (generate_lua g s) =
        findM (generate_lua g s).data := rfl
    have hdoc : generateLuaLines g s =
        "-- AUTO-GENERATED FILE - DO NOT EDIT MANUALLY" ::
          (headerLines.drop 1 ++ (entrySection g s ++ footerLines)) := by
      simp [generateLuaLines, headerLines]
    have hsec : entrySection g s =
        g.map (fun n => entryLine n "gold") ++ s.map (fun n => entryLine n "silver") := by
      simp [entrySection, hgs]
    rw [hparse, show (generate_lua g s) = joinLines (generateLuaLines g s) from rfl,
      hdoc, joinLines_data, tailJoin_append, tailJoin_append,
      ← List.append_assoc, headerChars_eq, List.append_assoc,
      findM_append_no_brace _ _ headerPre_no_brace, List.singleton_append]
    have hfirst : ∃ Z, List.dropWhile isPySpace
        (tailJoin (entrySection g s) ++ tailJoin footerLines) = '\x7b' :: Z := by
      cases g with
      | cons n g' =>
        rw [hsec]
        have : tailJoin ((n :: g').map (fun x => entryLine x "gold") ++
            s.map (fun x => entryLine x "silver")) ++ tailJoin footerLines =
            '\n' :: ((entryLine n "gold").data ++
              (tailJoin (g'.map (fun x => entryLine x "gold") ++
                s.map (fun x => entryLine x "silver")) ++ tailJoin footerLines)) := by
          simp [tailJoin, List.append_assoc]
        rw [this]
        exact exists_entry_drop n "gold" _
      | nil =>
        cases s with
        | nil => simp at hgs
        | cons m s' =>
          rw [hsec]
          have : tailJoin (([] : List String).map (fun x => entryLine x "gold") ++
              (m :: s').map (fun x => entryLine x "silver")) ++ tailJoin footerLines =
              '\n' :: ((entryLine m "silver").data ++
                (tailJoin (s'.map (fun x => entryLine x "silver")) ++
                  tailJoin footerLines)) := by
            simp [tailJoin, List.append_assoc]
          rw [this]
          exact exists_entry_drop m "silver" _
    obtain ⟨Z, hZ⟩ := hfirst
    rw [findM_cons_none (by
      cases htj : tailJoin (entrySection g s) ++ tailJoin footerLines with
      | nil => rw [htj] at hZ; simp [List.dropWhile] at hZ
      | cons c0 r0 =>
        rw [← htj]
        show matchAt ('\x7b' :: (tailJoin (entrySection g s) ++ tailJoin footerLines)) = none
        rw [show matchAt ('\x7b' :: (tailJoin (entrySection g s) ++ tailJoin footerLines)) =
            matchCore (tailJoin (entrySection g s) ++ tailJoin footerLines) by
          simp [matchAt]]
        exact matchCore_none hZ (by decide))]
    rw [hsec, tailJoin_append, List.append_assoc,
      findM_entries "gold" g _
        (fun nm hnm => by
          obtain ⟨h1, h2⟩ := hgood nm (List.mem_append_left s hnm)
          refine ⟨h1, fun c hc => ?_, luaEscapeData_id (fun c hc => h2 c hc)⟩
          have := h2 c hc
          tauto)
        (by decide),
      findM_entries "silver" s _
        (fun nm hnm => by
          obtain ⟨h1, h2⟩ := hgood nm (List.mem_append_right g hnm)
          refine ⟨h1, fun c hc => ?_, luaEscapeData_id (fun c hc => h2 c hc)⟩
          have := h2 c hc
          tauto)
        (by decide),
      findM_footer, List.append_nil]

/-- C10: for gold and silver name lists whose names are non-empty and
contain none of backslash, double quote, newline, carriage return, tab,
or null byte, `parse_existing_patrons` applied to the document produced
by `generate_lua` returns exactly the set union of the two name lists. -/
theorem parse_generate_roundtrip (g s : List String) (x : String)
    (hgood : ∀ y ∈ g ++ s, goodName y) :
    x ∈ parse_existing_patrons (generate_lua g s) ↔ x ∈ g ∨ x ∈ s := by
  rw [parse_generate g s hgood, List.mem_append]

/-- Witness for `parse_generate_roundtrip` on a concrete roster. -/
theorem parse_generate_roundtrip_witness :
    "Amy" ∈ parse_existing_patrons (generate_lua ["Amy"] ["Bo"]) ↔
      "Amy" ∈ ["Amy"] ∨ "Amy" ∈ ["Bo"] :=
  parse_generate_roundtrip ["Amy"] ["Bo"] "Amy" (by decide)

/-! ## Lemmas: new-patron detection -/

theorem entryLine_take2 (nm t : String) :
    (entryLine nm t).data.take 2 = [' ', ' '] := by
  rw [entryLine_data, List.take_append_of_le_length (by decide)]
  decide

theorem strip_generateLuaLines (g s : List String) :
    (stripCommentLines (generateLuaLines g s)).length =
      24 + (entrySection g s).length := by
  unfold stripCommentLines generateLuaLines
  rw [List.filter_append, List.filter_append]
  have hE : (entrySection g s).filter
      (fun l => !(decide (l.data.take 2 = ['-', '-']))) = entrySection g s := by
    rw [List.filter_eq_self]
    intro a ha
    unfold entrySection at ha
    by_cases hgs : g.isEmpty && s.isEmpty
    · rw [if_pos hgs] at ha
      simp only [List.mem_singleton] at ha
      subst ha
      decide
    · rw [if_neg hgs] at ha
      rcases List.mem_append.mp ha with hm | hm <;>
        (obtain ⟨n, _, rfl⟩ := List.mem_map.mp hm; simp [entryLine_take2])
  rw [hE]
  simp only [List.length_append]
  have hH : ((headerLines.filter
      (fun l => !(decide (l.data.take 2 = ['-', '-']))))).length = 15 := by decide
  have hF : ((footerLines.filter
      (fun l => !(decide (l.data.take 2 = ['-', '-']))))).length = 9 := by decide
  omega

theorem entrySection_length_of_ne (g s : List String)
    (h : ¬(g = [] ∧ s = [])) :
    (entrySection g s).length = g.length + s.length := by
  simp [entrySection, List.isEmpty_iff, h]

theorem eq_singleton_of_forall {C : String} :
    ∀ (m : List String), m.Nodup → (∀ x ∈ m, x = C) → C ∈ m → m = [C] := by
  intro m hnd hall hC
  cases m with
  | nil => cases hC
  | cons a m' =>
    have ha : a = C := hall a (List.mem_cons_self a m')
    subst ha
    cases m' with
    | nil => rfl
    | cons b m'' =>
      exfalso
      have hb : b = a := hall b (List.mem_cons_of_mem a (List.mem_cons_self b m''))
      rw [List.nodup_cons] at hnd
      exact hnd.1 (hb ▸ List.mem_cons_self b m'')

theorem runMain_changed (e : List String) (ms : List Member) (ok : Bool)
    (hcond : ¬(stripCommentLines e = stripCommentLines
      (generateLuaLines (categorize_members ms).1 (categorize_members ms).2))) :
    (runMain (some e) ms ok).notifications =
      if (newPatrons (parse_existing_patrons (joinLines e))
          (categorize_members ms).1 (categorize_members ms).2).isEmpty then []
      else [newPatrons (parse_existing_patrons (joinLines e))
          (categorize_members ms).1 (categorize_members ms).2] := by
  simp [runMain, hcond]

/-- C4: if a prior generated document contains exactly the names
`{A, B}` and the current run classifies exactly `{A, B, C}` as gold (and
nothing as silver), exactly one notification event is produced, for `C`
with tier `"gold"`; and when no prior document exists, no notification
fires regardless of the fetched members. -/
theorem new_patron_notification (A B C : String) (pg ps : List String)
    (ms ms2 : List Member) (ok ok2 : Bool)
    (hgoodp : ∀ x ∈ pg ++ ps, goodName x)
    (hAB : ∀ x, x ∈ pg ++ ps ↔ (x = A ∨ x = B))
    (hndp : (pg ++ ps).Nodup)
    (hABne : A ≠ B) (hCA : C ≠ A) (hCB : C ≠ B)
    (hmem : ∀ x, x ∈ (categorize_members ms).1 ↔ (x = A ∨ x = B ∨ x = C))
    (hnd : (categorize_members ms).1.Nodup)
    (hsil : (categorize_members ms).2 = []) :
    (runMain (some (generateLuaLines pg ps)) ms ok).notifications =
      [[(C, "gold")]] ∧
    (runMain none ms2 ok2).notifications = [] := by
  refine ⟨?_, by simp [runMain]⟩
  have hA_mem : A ∈ pg ++ ps := (hAB A).mpr (Or.inl rfl)
  have hpriorne : ¬(pg = [] ∧ ps = []) := by
    rintro ⟨rfl, rfl⟩
    cases hA_mem
  have hlen2 : pg.length + ps.length = 2 := by
    have h1 : (pg ++ ps).toFinset = {A, B} := by
      ext x
      rw [List.mem_toFinset, hAB x]
      simp
    have h2 := List.toFinset_card_of_nodup hndp
    rw [h1, Finset.card_insert_of_not_mem (by simp [hABne]),
      Finset.card_singleton] at h2
    simpa using h2.symm
  have hC_mem : C ∈ (categorize_members ms).1 := (hmem C).mpr (Or.inr (Or.inr rfl))
  have hgoldne : ¬((categorize_members ms).1 = [] ∧ ([] : List String) = []) := by
    rintro ⟨hh, _⟩
    rw [hh] at hC_mem
    cases hC_mem
  have hlen3 : (categorize_members ms).1.length = 3 := by
    have h1 : (categorize_members ms).1.toFinset = {A, B, C} := by
      ext x
      rw [List.mem_toFinset, hmem x]
      simp
    have h2 := List.toFinset_card_of_nodup hnd
    rw [h1, Finset.card_insert_of_not_mem (by simp [hABne, Ne.symm hCA]),
      Finset.card_insert_of_not_mem (by simp [Ne.symm hCB]),
      Finset.card_singleton] at h2
    omega
  have hcond : ¬(stripCommentLines (generateLuaLines pg ps) = stripCommentLines
      (generateLuaLines (categorize_members ms).1 (categorize_members ms).2)) := by
    rw [hsil]
    intro hEq
    have hlenEq := congrArg List.length hEq
    rw [strip_generateLuaLines, strip_generateLuaLines,
      entrySection_length_of_ne _ _ hpriorne,
      entrySection_length_of_ne _ _ hgoldne] at hlenEq
    simp only [List.length_nil] at hlenEq
    omega
  have hparse : parse_existing_patrons (joinLines (generateLuaLines pg ps)) =
      pg ++ ps :=
    parse_generate pg ps hgoodp
  have hnew : newPatrons (pg ++ ps) (categorize_members ms).1
      (categorize_members ms).2 = [(C, "gold")] := by
    rw [hsil]
    unfold newPatrons
    have hfilter : (categorize_members ms).1.filter
        (fun n => !(decide (n ∈ pg ++ ps))) = [C] := by
      apply eq_singleton_of_forall
      · exact List.Nodup.filter _ hnd
      · intro x hx
        have hx1 := List.mem_of_mem_filter hx
        have hx2 := List.of_mem_filter hx
        have hxnot : ¬(x = A ∨ x = B) := by
          intro hor
          have hm : x ∈ pg ++ ps := (hAB x).mpr hor
          simp [hm] at hx2
        rcases (hmem x).mp hx1 with h | h | h
        · exact absurd (Or.inl h) hxnot
        · exact absurd (Or.inr h) hxnot
        · exact h
      · rw [List.mem_filter]
        refine ⟨hC_mem, ?_⟩
        have hCnot : ¬(C ∈ pg ++ ps) := by
          rw [hAB C]
          rintro (h | h)
          exacts [hCA h, hCB h]
        simp [hCnot]
    rw [hfilter]
    simp
  rw [runMain_changed _ _ _ hcond, hparse, hnew]
  rfl

/-- Witness for `new_patron_notification`: prior roster `{amy, bo}`,
current gold roster `{amy, bo, cat}` — one event for `cat`. -/
theorem new_patron_notification_witness :
    (runMain (some (generateLuaLines ["amy", "bo"] []))
        [{ name := "amy", status := some "active_patron", amount_cents := 500 },
         { name := "bo", status := some "active_patron", amount_cents := 500 },
         { name := "cat", status := some "active_patron", amount_cents := 500 }]
        true).notifications = [[("cat", "gold")]] ∧
    (runMain none ([] : List Member) true).notifications = [] :=
  new_patron_notification "amy" "bo" "cat" ["amy", "bo"] []
    [{ name := "amy", status := some "active_patron", amount_cents := 500 },
     { name := "bo", status := some "active_patron", amount_cents := 500 },
     { name := "cat", status := some "active_patron", amount_cents := 500 }]
    [] true true
    (by decide)
    (by intro x; simp)
    (by decide) (by decide) (by decide) (by decide)
    (by
      intro x
      rw [show (categorize_members
          [{ name := "amy", status := some "active_patron", amount_cents := 500 },
           { name := "bo", status := some "active_patron", amount_cents := 500 },
           { name := "cat", status := some "active_patron", amount_cents := 500 }]).1 =
          ["amy", "bo", "cat"] by decide]
      simp)
    (by decide) (by decide)
